import Mathlib

/-!
Verification of the buffered chunked I/O layer of common/buf (io.go):
the copy engine (copyInternal / Copy), its error translation via
errors.Cause against io.EOF, the reader/writer factory dispatch, and the
byte-level round trip of the stream-to-chunk and chunk-to-stream adapters.
-/

set_option autoImplicit false

namespace Buf

/-- Root kind of a Go error value: io.EOF, the IO-timeout error underlying
ErrReadTimeout, or any other I/O failure identified by a code. -/
inductive BaseErr where
  | eof
  | ioTimeout
  | other (code : Nat)
  deriving DecidableEq

/-- A Go error value as seen by this layer: a root (base) error possibly
wrapped by some number of context layers (as produced by the errors package).
errors.Cause walks the wrapping chain back to the root. -/
structure GoError where
  base : BaseErr
  wraps : Nat
  deriving DecidableEq

/-- errors.Cause from the errors package: follows the chain of wrapped errors
to the root cause. In this model the root is stored directly. -/
def errorsCause (e : GoError) : BaseErr :=
  e.base

/-- io.EOF: the distinguished end-of-stream error value. -/
def ioEOF : GoError := ⟨BaseErr.eof, 0⟩

/-- ErrReadTimeout = newError("IO timeout"): a fresh error whose root cause is
itself, in particular not io.EOF. -/
def ErrReadTimeout : GoError := ⟨BaseErr.ioTimeout, 0⟩

/-- A MultiBuffer chunk as the copy engine sees it: an identity (for tracking
release calls) and a content length. The chunk type itself is external to
io.go; the copy engine only uses IsEmpty and Release. -/
structure MultiBuffer where
  mid : Nat
  contentLen : Nat
  deriving DecidableEq

/-- MultiBuffer.IsEmpty: the emptiness check the copy engine branches on. -/
def MultiBuffer.IsEmpty (b : MultiBuffer) : Bool :=
  b.contentLen == 0

/-- One result of a call to Reader.Read in a run of the copy loop: either a
chunk or an error (io.EOF included). -/
inductive ReadResult where
  | chunk (b : MultiBuffer)
  | fail (e : GoError)
  deriving DecidableEq

/-- A Writer as the copy engine sees it: Write either consumes the chunk
(none) or fails with an error. releasesOnFail records whether the adapter
releases the chunk internally before returning a failure (the pass-through
writer adapter does, per its contract of releasing regardless of outcome). -/
structure WriterModel where
  write : MultiBuffer → Option GoError
  releasesOnFail : Bool

/-- Observable events of one run of the copy loop: successful reads, read
errors, timer.Update calls, buffer.Release calls (by chunk identity) and
writer.Write calls (by chunk identity). -/
inductive Event where
  | evRead (mid : Nat)
  | evReadErr
  | evUpdate
  | evRelease (mid : Nat)
  | evWrite (mid : Nat)
  deriving DecidableEq

/-- copyInternal from io.go, run against a finite script of reader results:
  for { buffer, err := reader.Read(); if err != nil { return err };
        timer.Update();
        if buffer.IsEmpty() { buffer.Release(); continue };
        if err := writer.Write(buffer); err != nil { buffer.Release(); return err } }
Returns the event trace and the returned error. When the writer fails and the
writer adapter releases internally, that release is emitted before the loop's
own buffer.Release(). An exhausted script returns none (the real loop would
keep blocking on Read; no claim depends on this artifact case). -/
def copyInternal (w : WriterModel) : List ReadResult → List Event × Option GoError
  | [] => ([], none)
  | ReadResult.fail e :: _ => ([Event.evReadErr], some e)
  | ReadResult.chunk b :: rest =>
    if b.IsEmpty then
      (Event.evRead b.mid :: Event.evUpdate :: Event.evRelease b.mid ::
         (copyInternal w rest).1,
       (copyInternal w rest).2)
    else
      match w.write b with
      | some e =>
        (Event.evRead b.mid :: Event.evUpdate :: Event.evWrite b.mid ::
           ((if w.releasesOnFail then [Event.evRelease b.mid] else []) ++
             [Event.evRelease b.mid]),
         some e)
      | none =>
        (Event.evRead b.mid :: Event.evUpdate :: Event.evWrite b.mid ::
           (copyInternal w rest).1,
         (copyInternal w rest).2)

/-- Copy from io.go:
  err := copyInternal(timer, reader, writer)
  if err != nil && errors.Cause(err) != io.EOF { return err }
  return nil -/
def Copy (w : WriterModel) (script : List ReadResult) : Option GoError :=
  match (copyInternal w script).2 with
  | some e => if errorsCause e = BaseErr.eof then none else some e
  | none => none

/-- Number of timer.Update events in a trace. -/
def countUpdates : List Event → Nat
  | [] => 0
  | Event.evUpdate :: rest => 1 + countUpdates rest
  | _ :: rest => countUpdates rest

/-- Number of successful-read events in a trace. -/
def countReads : List Event → Nat
  | [] => 0
  | Event.evRead _ :: rest => 1 + countReads rest
  | _ :: rest => countReads rest

/-- Number of Release events for a given chunk identity in a trace. -/
def countReleases (mid : Nat) : List Event → Nat
  | [] => 0
  | Event.evRelease m :: rest => (if m = mid then 1 else 0) + countReleases mid rest
  | _ :: rest => countReleases mid rest

/-- Holds when every successful-read event is immediately followed by a
timer.Update event. -/
def readThenUpdate : List Event → Bool
  | [] => true
  | Event.evRead _ :: Event.evUpdate :: rest => readThenUpdate rest
  | Event.evRead _ :: _ => false
  | _ :: rest => readThenUpdate rest

/-- Chunk identities produced by a reader script. -/
def chunkIds : List ReadResult → List Nat
  | [] => []
  | ReadResult.chunk b :: rest => b.mid :: chunkIds rest
  | ReadResult.fail _ :: rest => chunkIds rest

/-- A writer that accepts every chunk. -/
def wOk : WriterModel := ⟨fun _ => none, false⟩

/-- A representative non-EOF I/O error. -/
def eIO : GoError := ⟨BaseErr.other 3, 0⟩

/-- A writer that fails every write with the non-EOF error eIO and does not
release internally. -/
def wErr : WriterModel := ⟨fun _ => some eIO, false⟩

/-- A writer that fails every write with io.EOF and does not release
internally. -/
def wEofErr : WriterModel := ⟨fun _ => some ioEOF, false⟩

/-- If every chunk in cs is accepted by the writer, copyInternal on the script
"cs then fail e" returns exactly e. -/
theorem copyInternal_result_after_chunks (w : WriterModel) (e : GoError) :
    ∀ cs : List MultiBuffer, (∀ c ∈ cs, w.write c = none) →
      (copyInternal w (cs.map ReadResult.chunk ++ [ReadResult.fail e])).2 = some e := by
  intro cs
  induction cs with
  | nil => intro _; simp [copyInternal]
  | cons c rest ih =>
    intro hw
    have hc : w.write c = none := hw c (by simp)
    have hrest : ∀ x ∈ rest, w.write x = none := fun x hx => hw x (by simp [hx])
    cases hbe : c.IsEmpty with
    | true => simp [copyInternal, hbe, ih hrest]
    | false => simp [copyInternal, hbe, hc, ih hrest]

/-- Claim C1: for every source whose read eventually reports end-of-stream
(an error whose root cause is io.EOF), and whose preceding zero or more
chunks are all transferred successfully, Copy returns nil (none), never an
error. -/
theorem copy_eof_success (w : WriterModel) (cs : List MultiBuffer) (e : GoError)
    (he : errorsCause e = BaseErr.eof)
    (hw : ∀ c ∈ cs, w.write c = none) :
    Copy w (cs.map ReadResult.chunk ++ [ReadResult.fail e]) = none := by
  have h := copyInternal_result_after_chunks w e cs hw
  simp only [Copy]
  rw [h]
  simp [he]

/-- Witness for C1 at a concrete writer, one transferred chunk and io.EOF. -/
theorem copy_eof_success_witness :
    errorsCause ioEOF = BaseErr.eof
    ∧ (∀ c ∈ [(⟨0, 5⟩ : MultiBuffer)], wOk.write c = none)
    ∧ Copy wOk ([(⟨0, 5⟩ : MultiBuffer)].map ReadResult.chunk
        ++ [ReadResult.fail ioEOF]) = none :=
  ⟨rfl, fun _ _ => rfl,
    copy_eof_success wOk [⟨0, 5⟩] ioEOF rfl (fun _ _ => rfl)⟩

/-- Counterexample to C2 as stated: a sink whose Write fails on a non-empty
chunk with the error io.EOF makes Copy return none (success), not that exact
error, because Copy translates any error whose root cause is io.EOF into
nil. -/
theorem copy_write_error_exact_counterexample :
    (⟨2, 4⟩ : MultiBuffer).IsEmpty = false
    ∧ wEofErr.write ⟨2, 4⟩ = some ioEOF
    ∧ Copy wEofErr [ReadResult.chunk ⟨2, 4⟩] = none
    ∧ Copy wEofErr [ReadResult.chunk ⟨2, 4⟩] ≠ some ioEOF := by
  refine ⟨rfl, rfl, rfl, ?_⟩
  decide

/-- Claim C2 (amended): for every sink whose Write fails on a non-empty chunk
with an error whose root cause is not io.EOF, the copy loop terminates at
that iteration (the trace ends with that iteration's events, and copyInternal
returns exactly the sink's error) and Copy returns exactly that error,
unchanged. -/
theorem copy_write_error_exact (w : WriterModel) (b : MultiBuffer)
    (rest : List ReadResult) (e : GoError)
    (hb : b.IsEmpty = false) (hw : w.write b = some e)
    (he : errorsCause e ≠ BaseErr.eof) :
    copyInternal w (ReadResult.chunk b :: rest)
      = (Event.evRead b.mid :: Event.evUpdate :: Event.evWrite b.mid ::
          ((if w.releasesOnFail then [Event.evRelease b.mid] else []) ++
            [Event.evRelease b.mid]),
         some e)
    ∧ Copy w (ReadResult.chunk b :: rest) = some e := by
  have h1 : copyInternal w (ReadResult.chunk b :: rest)
      = (Event.evRead b.mid :: Event.evUpdate :: Event.evWrite b.mid ::
          ((if w.releasesOnFail then [Event.evRelease b.mid] else []) ++
            [Event.evRelease b.mid]),
         some e) := by
    simp [copyInternal, hb, hw]
  refine ⟨h1, ?_⟩
  simp only [Copy]
  rw [h1]
  simp [he]

/-- Witness for the amended C2 at a concrete failing writer and chunk. -/
theorem copy_write_error_exact_witness :
    (⟨1, 4⟩ : MultiBuffer).IsEmpty = false
    ∧ wErr.write ⟨1, 4⟩ = some eIO
    ∧ errorsCause eIO ≠ BaseErr.eof
    ∧ Copy wErr [ReadResult.chunk ⟨1, 4⟩] = some eIO :=
  ⟨rfl, rfl, by decide,
    (copy_write_error_exact wErr ⟨1, 4⟩ [] eIO rfl rfl (by decide)).2⟩

/-- Modelled from the spec: the pass-through writer adapter
(BufferToBytesWriter, not present in io.go) writes the chunk to the
underlying stream and releases the chunk regardless of outcome, so on a
write failure it has already released the chunk internally before
copyInternal performs its own buffer.Release(). Here it fails with the
non-EOF error eIO. -/
def bufferToBytesWriterFailing : WriterModel := ⟨fun _ => some eIO, true⟩

/-- Claim C3 evaluated on the code: when the sink's Write fails on a
non-empty chunk and the writer adapter releases the chunk internally on
failure (as the pass-through writer does), the chunk is released twice in
total — once by the writer and once more by copyInternal — contradicting the
claimed release-exactly-once. -/
theorem copy_write_fail_double_release :
    countReleases 0
      (copyInternal bufferToBytesWriterFailing [ReadResult.chunk ⟨0, 5⟩]).1 = 2 := by
  rfl

/-- Claim C4: for every source whose read reports ErrReadTimeout after zero
or more successfully transferred chunks, Copy returns exactly that timeout
error; it is never swallowed into a success result. -/
theorem copy_timeout_propagated (w : WriterModel) (cs : List MultiBuffer)
    (hw : ∀ c ∈ cs, w.write c = none) :
    Copy w (cs.map ReadResult.chunk ++ [ReadResult.fail ErrReadTimeout])
      = some ErrReadTimeout := by
  have h := copyInternal_result_after_chunks w ErrReadTimeout cs hw
  simp only [Copy]
  rw [h]
  simp [errorsCause, ErrReadTimeout]

/-- Witness for C4 at a concrete writer and one transferred chunk. -/
theorem copy_timeout_propagated_witness :
    (∀ c ∈ [(⟨4, 2⟩ : MultiBuffer)], wOk.write c = none)
    ∧ Copy wOk ([(⟨4, 2⟩ : MultiBuffer)].map ReadResult.chunk
        ++ [ReadResult.fail ErrReadTimeout]) = some ErrReadTimeout :=
  ⟨fun _ _ => rfl,
    copy_timeout_propagated wOk [⟨4, 2⟩] (fun _ _ => rfl)⟩

/-- Claim C10: if the sink's Write fails on a non-empty chunk with an error
whose root cause is io.EOF, Copy returns nil (none): the EOF-to-success
translation in Copy applies to write errors as well. -/
theorem copy_write_eof_swallowed (w : WriterModel) (b : MultiBuffer)
    (rest : List ReadResult) (e : GoError)
    (hb : b.IsEmpty = false) (hw : w.write b = some e)
    (he : errorsCause e = BaseErr.eof) :
    Copy w (ReadResult.chunk b :: rest) = none := by
  have h1 : (copyInternal w (ReadResult.chunk b :: rest)).2 = some e := by
    simp [copyInternal, hb, hw]
  simp only [Copy]
  rw [h1]
  simp [he]

/-- Witness for C10 at a concrete io.EOF-failing writer. -/
theorem copy_write_eof_swallowed_witness :
    (⟨5, 4⟩ : MultiBuffer).IsEmpty = false
    ∧ wEofErr.write ⟨5, 4⟩ = some ioEOF
    ∧ errorsCause ioEOF = BaseErr.eof
    ∧ Copy wEofErr [ReadResult.chunk ⟨5, 4⟩] = none :=
  ⟨rfl, rfl, rfl,
    copy_write_eof_swallowed wEofErr ⟨5, 4⟩ [] ioEOF rfl rfl rfl⟩

/-- Claim C5: in every run of the copy loop, timer.Update is called exactly
once per successful read (the counts agree), and each successful-read event
is immediately followed by the Update event — hence the Update happens after
the read and before the emptiness check, any Release and any Write, also in
iterations whose chunk is empty. -/
theorem copy_timer_update_per_read (w : WriterModel) (script : List ReadResult) :
    countUpdates (copyInternal w script).1 = countReads (copyInternal w script).1
    ∧ readThenUpdate (copyInternal w script).1 = true := by
  induction script with
  | nil => simp [copyInternal, countUpdates, countReads, readThenUpdate]
  | cons r rest ih =>
    cases r with
    | fail e => simp [copyInternal, countUpdates, countReads, readThenUpdate]
    | chunk b =>
      cases hbe : b.IsEmpty with
      | true =>
        refine ⟨?_, ?_⟩
        · simp [copyInternal, hbe, countUpdates, countReads, ih.1]
        · simp [copyInternal, hbe, readThenUpdate, ih.2]
      | false =>
        cases hw : w.write b with
        | some e =>
          cases hrel : w.releasesOnFail with
          | true =>
            refine ⟨?_, ?_⟩
            · simp [copyInternal, hbe, hw, hrel, countUpdates, countReads]
            · simp [copyInternal, hbe, hw, hrel, readThenUpdate]
          | false =>
            refine ⟨?_, ?_⟩
            · simp [copyInternal, hbe, hw, hrel, countUpdates, countReads]
            · simp [copyInternal, hbe, hw, hrel, readThenUpdate]
        | none =>
          refine ⟨?_, ?_⟩
          · simp [copyInternal, hbe, hw, countUpdates, countReads, ih.1]
          · simp [copyInternal, hbe, hw, readThenUpdate, ih.2]

/-- A Write event in the trace always carries the identity of some chunk of
the script. -/
theorem write_event_mid_mem (w : WriterModel) :
    ∀ (script : List ReadResult) (m : Nat),
      Event.evWrite m ∈ (copyInternal w script).1 → m ∈ chunkIds script := by
  intro script
  induction script with
  | nil => intro m hm; simp [copyInternal] at hm
  | cons r rest ih =>
    intro m hm
    cases r with
    | fail e => simp [copyInternal] at hm
    | chunk b =>
      cases hbe : b.IsEmpty with
      | true =>
        rw [copyInternal] at hm
        simp [hbe] at hm
        simp [chunkIds, ih m hm]
      | false =>
        cases hw : w.write b with
        | some e =>
          rw [copyInternal] at hm
          cases hrel : w.releasesOnFail with
          | true =>
            simp [hbe, hw, hrel] at hm
            simp [chunkIds, hm]
          | false =>
            simp [hbe, hw, hrel] at hm
            simp [chunkIds, hm]
        | none =>
          rw [copyInternal] at hm
          simp [hbe, hw] at hm
          cases hm with
          | inl h => simp [chunkIds, h]
          | inr h => simp [chunkIds, ih m h]

/-- Claim C6: when the source produces an empty chunk, the copy loop marks
the timer, releases that chunk and continues with the rest of the script
without calling the sink's Write; and if no later chunk shares this chunk's
identity, no Write event for it ever appears in the whole trace. -/
theorem copy_empty_chunk_skipped (w : WriterModel) (b : MultiBuffer)
    (rest : List ReadResult)
    (hb : b.IsEmpty = true) (hm : b.mid ∉ chunkIds rest) :
    copyInternal w (ReadResult.chunk b :: rest)
      = (Event.evRead b.mid :: Event.evUpdate :: Event.evRelease b.mid ::
           (copyInternal w rest).1,
         (copyInternal w rest).2)
    ∧ Event.evWrite b.mid ∉ (copyInternal w (ReadResult.chunk b :: rest)).1 := by
  have h1 : copyInternal w (ReadResult.chunk b :: rest)
      = (Event.evRead b.mid :: Event.evUpdate :: Event.evRelease b.mid ::
           (copyInternal w rest).1,
         (copyInternal w rest).2) := by
    rw [copyInternal]
    simp [hb]
  refine ⟨h1, ?_⟩
  rw [h1]
  intro hmem
  simp at hmem
  exact hm (write_event_mid_mem w rest b.mid hmem)

/-- Witness for C6 at a concrete empty chunk and empty remainder. -/
theorem copy_empty_chunk_skipped_witness :
    (⟨3, 0⟩ : MultiBuffer).IsEmpty = true
    ∧ Event.evWrite 3 ∉ (copyInternal wOk [ReadResult.chunk ⟨3, 0⟩]).1 :=
  ⟨rfl,
    (copy_empty_chunk_skipped wOk ⟨3, 0⟩ [] rfl (by simp [chunkIds])).2⟩

/-- Modelled from the spec: the stream-to-chunk reader built by NewReader
(BytesToBufferReader, not present in io.go) issues one underlying read per
call and wraps exactly the bytes returned into one chunk. A run of the
underlying raw stream is thus a segmentation segs of its byte sequence, and
the chunked reader yields exactly those segments as chunks. -/
def newReaderChunks (segs : List (List Nat)) : List (List Nat) :=
  segs

/-- Modelled from the spec: the state of the chunk-to-stream reader built by
ToBytesReader (bufferToBytesReader, not present in io.go): the unconsumed
remainder of the current chunk, and the chunks not yet pulled from the
underlying chunked reader. -/
structure B2BState where
  pending : List Nat
  chunks : List (List Nat)
  deriving DecidableEq

/-- Modelled from the spec: ToBytesReader starts with no held-over bytes in
front of the chunked reader's output. -/
def toBytesReaderState (chunks : List (List Nat)) : B2BState :=
  ⟨[], chunks⟩

/-- Modelled from the spec: one Read call of the chunk-to-stream reader with
a caller buffer of size k: serve from the held-over bytes if any, else pull
the next chunk and serve up to k of its bytes, holding the remainder over
for the next call; at end of the chunk stream serve nothing. -/
def bufferToBytesReadOnce (st : B2BState) (k : Nat) : List Nat × B2BState :=
  match st.pending, st.chunks with
  | [], [] => ([], ⟨[], []⟩)
  | [], c :: cs => (c.take k, ⟨c.drop k, cs⟩)
  | p, cs => (p.take k, ⟨p.drop k, cs⟩)

/-- Reading n bytes through the chunk-to-stream reader by repeated Read
calls until n bytes are collected or the stream ends; fuel bounds the number
of calls (each call either delivers bytes or consumes one chunk). -/
def readFullBytes : Nat → B2BState → Nat → List Nat
  | 0, _, _ => []
  | Nat.succ fuel, st, n =>
    if n = 0 then []
    else
      match st.pending, st.chunks with
      | [], [] => []
      | _, _ =>
        (bufferToBytesReadOnce st n).1 ++
          readFullBytes fuel (bufferToBytesReadOnce st n).2
            (n - (bufferToBytesReadOnce st n).1.length)

/-- Serving a request of n bytes from a list l followed by r equals taking n
from l and then the remaining request from the leftover of l followed by
r. -/
theorem take_serve (l r : List Nat) (n : Nat) :
    (l ++ r).take n = l.take n ++ (l.drop n ++ r).take (n - min n l.length) := by
  induction l generalizing n with
  | nil => simp
  | cons a t ih =>
    cases n with
    | zero => simp
    | succ m =>
      simp only [List.cons_append, List.take_succ_cons, List.drop_succ_cons,
        List.length_cons, Nat.succ_min_succ, Nat.succ_sub_succ]
      rw [ih m]

/-- The chunk-to-stream reader, started on pending bytes p and chunks cs,
reads exactly the first n bytes of p followed by the concatenation of cs,
whenever the fuel covers the chunk count plus the request. -/
theorem readFullBytes_spec :
    ∀ (fuel : Nat) (p : List Nat) (cs : List (List Nat)) (n : Nat),
      cs.length + n ≤ fuel →
      readFullBytes fuel ⟨p, cs⟩ n = (p ++ cs.flatten).take n := by
  intro fuel
  induction fuel with
  | zero =>
    intro p cs n h
    have hn : n = 0 := by omega
    subst hn
    simp [readFullBytes]
  | succ f ih =>
    intro p cs n h
    by_cases hn : n = 0
    · subst hn
      simp [readFullBytes]
    · cases p with
      | nil =>
        cases cs with
        | nil => simp [readFullBytes, hn]
        | cons c cs2 =>
          have step : readFullBytes (f + 1) ⟨[], c :: cs2⟩ n
              = c.take n ++ readFullBytes f ⟨c.drop n, cs2⟩
                  (n - (c.take n).length) := by
            rw [readFullBytes]
            simp [hn, bufferToBytesReadOnce]
          rw [step, ih (c.drop n) cs2 (n - (c.take n).length)
            (by simp only [List.length_cons] at h
                simp only [List.length_take]
                omega)]
          simp only [List.length_take, List.nil_append, List.flatten_cons]
          exact (take_serve c cs2.flatten n).symm
      | cons a t =>
        have step : readFullBytes (f + 1) ⟨a :: t, cs⟩ n
            = (a :: t).take n ++ readFullBytes f ⟨(a :: t).drop n, cs⟩
                (n - ((a :: t).take n).length) := by
          rw [readFullBytes]
          cases cs with
          | nil => simp [hn, bufferToBytesReadOnce]
          | cons c cs2 => simp [hn, bufferToBytesReadOnce]
        have hfuel : cs.length + (n - ((a :: t).take n).length) ≤ f := by
          simp only [List.length_take, List.length_cons]
          omega
        rw [step, ih ((a :: t).drop n) cs (n - ((a :: t).take n).length) hfuel]
        simp only [List.length_take]
        exact (take_serve (a :: t) cs.flatten n).symm

/-- Claim C7: wrapping a raw stream with NewReader and converting the result
back with ToBytesReader, then reading n bytes, yields exactly the first n
bytes the raw stream itself would have produced, for every internal
segmentation segs of the stream into chunks. -/
theorem reader_roundtrip (segs : List (List Nat)) (n fuel : Nat)
    (hf : segs.length + n ≤ fuel) :
    readFullBytes fuel (toBytesReaderState (newReaderChunks segs)) n
      = segs.flatten.take n := by
  simpa [toBytesReaderState, newReaderChunks]
    using readFullBytes_spec fuel [] segs n hf

/-- Witness for C7 on a concrete segmentation crossing chunk boundaries. -/
theorem reader_roundtrip_witness :
    ([[1, 2], [3], [], [4, 5, 6]] : List (List Nat)).length + 4 ≤ 8
    ∧ readFullBytes 8
        (toBytesReaderState (newReaderChunks [[1, 2], [3], [], [4, 5, 6]])) 4
      = ([[1, 2], [3], [], [4, 5, 6]] : List (List Nat)).flatten.take 4 :=
  ⟨by decide, reader_roundtrip [[1, 2], [3], [], [4, 5, 6]] 4 8 (by decide)⟩

/-- The shapes an underlying handle can have at NewReader /
NewMergingReaderSize: one that natively implements the chunked-read
(MultiBufferReader) contract, or a plain io.Reader. -/
inductive UnderlyingReader where
  | multiBufferReader
  | plainReader
  deriving DecidableEq

/-- The reader adapters the factories in io.go construct: the passthrough
readerAdpater (the source's spelling) or a BytesToBufferReader carrying the
scratch buffer size it allocates. -/
inductive ReaderAdapter where
  | readerAdpater
  | bytesToBufferReader (scratchSize : Nat)
  deriving DecidableEq

/-- NewReader from io.go: a handle implementing MultiBufferReader gets the
passthrough readerAdpater; any other reader gets a BytesToBufferReader with
a 32*1024-byte scratch buffer. -/
def NewReader : UnderlyingReader → ReaderAdapter
  | UnderlyingReader.multiBufferReader => ReaderAdapter.readerAdpater
  | UnderlyingReader.plainReader => ReaderAdapter.bytesToBufferReader (32 * 1024)

/-- NewMergingReaderSize from io.go: always constructs a BytesToBufferReader
with the given scratch size, performing no capability detection. -/
def NewMergingReaderSize (_ : UnderlyingReader) (size : Nat) : ReaderAdapter :=
  ReaderAdapter.bytesToBufferReader size

/-- NewMergingReader from io.go: NewMergingReaderSize with size 32*1024. -/
def NewMergingReader (r : UnderlyingReader) : ReaderAdapter :=
  NewMergingReaderSize r (32 * 1024)

/-- The shapes an underlying handle can have at NewWriter /
NewMergingWriterSize: one that natively implements the chunked-write
(MultiBufferWriter) contract, or a plain io.Writer. -/
inductive UnderlyingWriter where
  | multiBufferWriter
  | plainWriter
  deriving DecidableEq

/-- The writer adapters the factories in io.go construct: the passthrough
writerAdapter, the direct BufferToBytesWriter, or a mergingWriter carrying
the internal buffer size it allocates. -/
inductive WriterAdapter where
  | writerAdapter
  | bufferToBytesWriter
  | mergingWriter (bufSize : Nat)
  deriving DecidableEq

/-- NewWriter from io.go: a handle implementing MultiBufferWriter gets the
passthrough writerAdapter; any other writer gets a BufferToBytesWriter. -/
def NewWriter : UnderlyingWriter → WriterAdapter
  | UnderlyingWriter.multiBufferWriter => WriterAdapter.writerAdapter
  | UnderlyingWriter.plainWriter => WriterAdapter.bufferToBytesWriter

/-- NewMergingWriterSize from io.go: always constructs a mergingWriter with
the given buffer size, performing no capability detection. -/
def NewMergingWriterSize (_ : UnderlyingWriter) (size : Nat) : WriterAdapter :=
  WriterAdapter.mergingWriter size

/-- NewMergingWriter from io.go: NewMergingWriterSize with size 4096. -/
def NewMergingWriter (wk : UnderlyingWriter) : WriterAdapter :=
  NewMergingWriterSize wk 4096

/-- Counterexample to C8 as stated: NewMergingReaderSize on a handle that
natively implements the chunked-read contract still constructs a
scratch-buffer BytesToBufferReader, not the passthrough adapter; likewise
NewMergingWriter constructs a mergingWriter, not the passthrough. -/
theorem merging_factories_not_passthrough_counterexample :
    NewMergingReaderSize UnderlyingReader.multiBufferReader 32768
      ≠ ReaderAdapter.readerAdpater
    ∧ NewMergingWriter UnderlyingWriter.multiBufferWriter
      ≠ WriterAdapter.writerAdapter := by
  decide

/-- Claim C8 (amended): only NewReader and NewWriter perform capability
detection, returning the passthrough adapters for handles that natively
satisfy the chunked contracts; the merging factories (NewMergingReader,
NewMergingReaderSize, NewMergingWriter, NewMergingWriterSize) perform no
such detection and always construct scratch-buffer or merging adapters. -/
theorem factory_capability_dispatch :
    NewReader UnderlyingReader.multiBufferReader = ReaderAdapter.readerAdpater
    ∧ NewWriter UnderlyingWriter.multiBufferWriter = WriterAdapter.writerAdapter
    ∧ (∀ s, NewMergingReaderSize UnderlyingReader.multiBufferReader s
        = ReaderAdapter.bytesToBufferReader s)
    ∧ NewMergingReader UnderlyingReader.multiBufferReader
        = ReaderAdapter.bytesToBufferReader (32 * 1024)
    ∧ (∀ s, NewMergingWriterSize UnderlyingWriter.multiBufferWriter s
        = WriterAdapter.mergingWriter s)
    ∧ NewMergingWriter UnderlyingWriter.multiBufferWriter
        = WriterAdapter.mergingWriter 4096 :=
  ⟨rfl, rfl, fun _ => rfl, rfl, fun _ => rfl, rfl⟩

/-- Claim C9: the scratch-buffer reader adapter defaults to a 32*1024-byte
scratch buffer (NewReader on a plain reader, and NewMergingReader) and is
configurable through the size-taking factory NewMergingReaderSize; the
merging writer defaults to a 4096-byte internal buffer (NewMergingWriter)
and is configurable through NewMergingWriterSize. -/
theorem adapter_default_capacities :
    NewReader UnderlyingReader.plainReader
      = ReaderAdapter.bytesToBufferReader (32 * 1024)
    ∧ (∀ k, NewMergingReader k = ReaderAdapter.bytesToBufferReader (32 * 1024))
    ∧ (∀ k s, NewMergingReaderSize k s = ReaderAdapter.bytesToBufferReader s)
    ∧ (∀ k, NewMergingWriter k = WriterAdapter.mergingWriter 4096)
    ∧ (∀ k s, NewMergingWriterSize k s = WriterAdapter.mergingWriter s) :=
  ⟨rfl, fun _ => rfl, fun _ _ => rfl, fun _ => rfl, fun _ _ => rfl⟩

end Buf
